import Mathlib

/-!
Verification of the Linear MCP server (`src/index.ts`) against its
natural-language specification.

The development shallowly embeds the server's pure helpers
(`extractImageUrls`, `formatPriority`, the mime-type chooser, the
`get_my_issues` filter construction) as Lean functions, and its stateful
pipeline (`downloadImage`, `processMarkdownWithImages`, the five tool
handlers) as explicit state-passing functions over a modelled file system
and an oracle environment standing for the Linear API, the HTTP fetcher
and the host file system.  External libraries that are not part of the
repository (the `p-map` bounded-concurrency map, node's `crypto`/`url`
modules, and the `search_issues` tool that the specification describes but
that is absent from the source tree) are modelled from the specification's
description and are marked as such in their doc comments.
-/

namespace LinearMCP

/-- JavaScript's `s || fallback` on strings: the empty string is falsy. -/
def jsOr (s fallback : String) : String :=
  if s = "" then fallback else s

/-- Embedding of `formatPriority` (src/index.ts lines 129-139): `null`
becomes `none`, the `switch` becomes an if-chain. -/
def formatPriority (priority : Option Int) : String :=
  match priority with
  | none => "None"
  | some p =>
    if p = 0 then "No priority"
    else if p = 1 then "Urgent"
    else if p = 2 then "High"
    else if p = 3 then "Medium"
    else if p = 4 then "Low"
    else "Priority " ++ toString p

/-- ASCII lowering of one character, modelling JavaScript's
`toLowerCase` on the ASCII range the compared strings live in. -/
def toLowerChar (c : Char) : Char :=
  if 'A' ≤ c ∧ c ≤ 'Z' then Char.ofNat (c.toNat + 32) else c

/-- Modelled from JavaScript's `String.prototype.toLowerCase`, restricted
to ASCII lowering. -/
def strToLower (s : String) : String :=
  String.mk (s.data.map toLowerChar)

/-- Modelled from JavaScript's `String.prototype.endsWith`. -/
def strEndsWith (s suffix : String) : Bool :=
  suffix.data.isSuffixOf s.data

/-- Embedding of the mime-type choice made for each image block in
`get_ticket` (src/index.ts lines 230-233). -/
def mimeTypeFor (url : String) : String :=
  if strEndsWith (strToLower url) ".jpg" || strEndsWith (strToLower url) ".jpeg" then
    "image/jpeg"
  else
    "image/png"

/-- The workflow-state-type constraint that `get_my_issues` can put into
its issue filter: either `type: { in: [...] }` or `type: { eq: ... }`. -/
inductive StateTypeFilter where
  | inTypes (types : List String)
  | eqType (t : String)
deriving DecidableEq

/-- The `state` argument of `get_my_issues` (a five-variant enum). -/
inductive IssuesStateArg where
  | active | backlog | completed | canceled | all
deriving DecidableEq

/-- The issue filter built by `get_my_issues`: an assignee-id equality
constraint plus an optional workflow-state-type constraint.  `none`
models both the absent `state` key of the first version of the handler
(src/index.ts lines 282-296) and the empty object `state: {}` of the
second version (lines 886-901), which constrains nothing. -/
structure IssueFilterM where
  assigneeIdEq : String
  stateFilter : Option StateTypeFilter
deriving DecidableEq

/-- Embedding of the filter construction in `get_my_issues`
(src/index.ts lines 282-296 and 886-901). -/
def buildMyIssuesFilters (userId : String) (state : IssuesStateArg) : IssueFilterM :=
  let filters : IssueFilterM := { assigneeIdEq := userId, stateFilter := none }
  if state ≠ IssuesStateArg.all then
    if state = IssuesStateArg.active then
      { filters with stateFilter := some (StateTypeFilter.inTypes ["started", "unstarted"]) }
    else if state = IssuesStateArg.backlog then
      { filters with stateFilter := some (StateTypeFilter.eqType "backlog") }
    else if state = IssuesStateArg.completed then
      { filters with stateFilter := some (StateTypeFilter.eqType "completed") }
    else if state = IssuesStateArg.canceled then
      { filters with stateFilter := some (StateTypeFilter.eqType "canceled") }
    else filters
  else filters

/-- Characters matched by the JavaScript regex metacharacter `.` without
the `s` flag: any character but a line terminator. -/
def isDotChar (c : Char) : Bool :=
  c != '\n' && c != '\r' && c != '\u2028' && c != '\u2029'

/-- Lazy matching of `(.*?)\)`: consume the shortest run of dot-characters
up to a closing parenthesis, returning the captured run and the remainder
of the input after the parenthesis. -/
def findCapture : List Char → Option (List Char × List Char)
  | [] => none
  | c :: cs =>
    if c = ')' then some ([], cs)
    else if isDotChar c then
      match findCapture cs with
      | some (cap, rest) => some (c :: cap, rest)
      | none => none
    else none

/-- The suffix returned by a successful `findCapture` is strictly shorter
than the input. -/
theorem findCapture_length : ∀ l cap rest : List Char,
    findCapture l = some (cap, rest) → rest.length < l.length := by
  intro l
  induction l with
  | nil => intro cap rest h; simp [findCapture] at h
  | cons c cs ih =>
    intro cap rest h
    rw [findCapture] at h
    by_cases hc : c = ')'
    · rw [if_pos hc] at h
      cases h
      simp
    · rw [if_neg hc] at h
      by_cases hd : isDotChar c = true
      · rw [if_pos hd] at h
        cases hfc : findCapture cs with
        | none => rw [hfc] at h; cases h
        | some p =>
          rw [hfc] at h
          cases p with
          | mk cap2 rest2 =>
            cases h
            exact Nat.lt_trans (ih cap2 rest (by rw [hfc])) (by simp)
      · rw [if_neg hd] at h
        cases h

/-- Lazy matching of `.*?\]\((.*?)\)` after the opening `![` has been
consumed: try to exit the outer star at the first `](`, and on failure of
the inner part extend the outer star by one dot-character (full
backtracking, as the JavaScript engine does). -/
def matchBody : List Char → Option (List Char × List Char)
  | [] => none
  | c :: cs =>
    match (if c = ']' ∧ cs.head? = some '(' then findCapture cs.tail else none) with
    | some r => some r
    | none => if isDotChar c then matchBody cs else none

/-- The suffix returned by a successful `matchBody` is strictly shorter
than the input. -/
theorem matchBody_length : ∀ l cap rest : List Char,
    matchBody l = some (cap, rest) → rest.length < l.length := by
  intro l
  induction l with
  | nil => intro cap rest h; simp [matchBody] at h
  | cons c cs ih =>
    intro cap rest h
    rw [matchBody] at h
    cases hsc : (if c = ']' ∧ cs.head? = some '(' then findCapture cs.tail else none) with
    | some r =>
      rw [hsc] at h
      cases h
      by_cases hcond : c = ']' ∧ cs.head? = some '('
      · rw [if_pos hcond] at hsc
        have h1 := findCapture_length cs.tail cap rest hsc
        have h2 : cs.tail.length ≤ cs.length := by cases cs <;> simp
        simp only [List.length_cons]
        omega
      · rw [if_neg hcond] at hsc
        cases hsc
    | none =>
      rw [hsc] at h
      by_cases hd : isDotChar c = true
      · rw [if_pos hd] at h
        exact Nat.lt_trans (ih cap rest h) (by simp)
      · rw [if_neg hd] at h
        cases h

/-- Scanning loop of the global regex `/!\[.*?\]\((.*?)\)/g` over the
input: at each position try to start a match at `![`; on success resume
after the match (as `exec` with a `g` flag does via `lastIndex`),
otherwise advance one character. -/
def scanAux (l : List Char) : List (List Char) :=
  match l with
  | [] => []
  | c :: cs =>
    match h : (if c = '!' ∧ cs.head? = some '[' then matchBody cs.tail else none) with
    | some r => r.1 :: scanAux r.2
    | none => scanAux cs
termination_by l.length
decreasing_by
  · have hm : matchBody cs.tail = some r := by
      split at h
      · exact h
      · cases h
    have h1 := matchBody_length cs.tail r.1 r.2 (by rw [hm])
    have h2 : cs.tail.length ≤ cs.length := by cases cs <;> simp
    simp only [List.length_cons]
    omega
  · simp

/-- Fuel-driven version of the scanning loop: structural recursion on the
fuel makes it evaluate by kernel reduction.  Fuel equal to the input's
length is enough, as each step consumes at least one character
(`scanAuxF_eq_scanAux` below). -/
def scanAuxF : Nat → List Char → List (List Char)
  | 0, _ => []
  | _ + 1, [] => []
  | fuel + 1, c :: cs =>
    match (if c = '!' ∧ cs.head? = some '[' then matchBody cs.tail else none) with
    | some r => r.1 :: scanAuxF fuel r.2
    | none => scanAuxF fuel cs

/-- Unfolding equation of `scanAux` when a match starts at the head. -/
theorem scanAux_cons_some (c : Char) (cs : List Char) (r : List Char × List Char)
    (h : (if c = '!' ∧ cs.head? = some '[' then matchBody cs.tail else none) = some r) :
    scanAux (c :: cs) = r.1 :: scanAux r.2 := by
  rw [scanAux]
  split
  · next r2 heq => rw [h] at heq; cases heq; rfl
  · next heq => rw [h] at heq; cases heq

/-- Unfolding equation of `scanAux` when no match starts at the head. -/
theorem scanAux_cons_none (c : Char) (cs : List Char)
    (h : (if c = '!' ∧ cs.head? = some '[' then matchBody cs.tail else none) = none) :
    scanAux (c :: cs) = scanAux cs := by
  rw [scanAux]
  split
  · next r2 heq => rw [h] at heq; cases heq
  · rfl

/-- With enough fuel the fuel-driven scan agrees with the scanning loop. -/
theorem scanAuxF_eq_scanAux : ∀ (fuel : Nat) (l : List Char), l.length ≤ fuel →
    scanAuxF fuel l = scanAux l := by
  intro fuel
  induction fuel with
  | zero =>
    intro l h
    have hnil : l = [] := List.length_eq_zero.mp (Nat.le_zero.mp h)
    subst hnil
    rw [scanAuxF, scanAux]
  | succ fuel ih =>
    intro l h
    cases l with
    | nil => rw [scanAuxF, scanAux]
    | cons c cs =>
      cases hsc : (if c = '!' ∧ cs.head? = some '[' then matchBody cs.tail else none) with
      | some r =>
        have hm : matchBody cs.tail = some r := by
          rcases Decidable.em (c = '!' ∧ cs.head? = some '[') with hcond | hcond
          · rwa [if_pos hcond] at hsc
          · rw [if_neg hcond] at hsc; cases hsc
        have hlen : r.2.length ≤ fuel := by
          have h1 := matchBody_length cs.tail r.1 r.2 (by rw [hm])
          have h2 : cs.tail.length ≤ cs.length := by cases cs <;> simp
          simp only [List.length_cons] at h
          omega
        rw [scanAuxF, hsc]
        show r.1 :: scanAuxF fuel r.2 = _
        rw [scanAux_cons_some c cs r hsc, ih r.2 hlen]
      | none =>
        have hlen : cs.length ≤ fuel := by
          simp only [List.length_cons] at h
          omega
        rw [scanAuxF, hsc]
        show scanAuxF fuel cs = _
        rw [scanAux_cons_none c cs hsc, ih cs hlen]

/-- Embedding of `extractImageUrls` (src/index.ts lines 42-55): all
captures of the global regex `/!\[.*?\]\((.*?)\)/g`, in document order.
The function is pure and total: no side effects, cannot fail.  The fuel
is an evaluation artifact; by `scanAuxF_eq_scanAux` the function equals
the direct scanning loop `scanAux`. -/
def extractImageUrls (markdown : String) : List String :=
  (scanAuxF markdown.data.length markdown.data).map String.mk

/-- The extractor agrees with the un-fuelled scanning loop. -/
theorem extractImageUrls_eq_scanAux (markdown : String) :
    extractImageUrls markdown = (scanAux markdown.data).map String.mk := by
  unfold extractImageUrls
  rw [scanAuxF_eq_scanAux _ _ (Nat.le_refl _)]

/-- Characters allowed in a well-formed image URL for the exactness
statement: dot-characters other than the closing parenthesis. -/
def urlCharOk (c : Char) : Bool :=
  isDotChar c && c != ')'

/-- True when the text contains an adjacent `![` pair, i.e. a position at
which the image regex could start a match. -/
def hasImageOpen : List Char → Bool
  | [] => false
  | c :: cs => (c == '!' && cs.head? == some '[') || hasImageOpen cs

/-- True when the text contains an adjacent `](` pair, i.e. a position at
which the lazy alt-text part of the image regex would stop early. -/
def hasCloseOpen : List Char → Bool
  | [] => false
  | c :: cs => (c == ']' && cs.head? == some '(') || hasCloseOpen cs

/-- On a well-formed URL followed by a closing parenthesis, the lazy
capture returns exactly the URL and the remainder after the parenthesis. -/
theorem findCapture_exact (url rest : List Char) (h : url.all urlCharOk = true) :
    findCapture (url ++ ')' :: rest) = some (url, rest) := by
  induction url with
  | nil => rw [List.nil_append, findCapture, if_pos rfl]
  | cons c cs ih =>
    rw [List.all_cons, Bool.and_eq_true] at h
    obtain ⟨hc, hcs⟩ := h
    simp only [urlCharOk, Bool.and_eq_true, bne_iff_ne, ne_eq] at hc
    rw [List.cons_append, findCapture, if_neg hc.2, if_pos hc.1, ih hcs]

/-- On a well-formed alt text, `](`, a well-formed URL and `)`, the body
matcher returns exactly the URL and the remainder after the match. -/
theorem matchBody_exact (alt url rest : List Char)
    (halt : alt.all isDotChar = true) (hco : hasCloseOpen alt = false)
    (hurl : url.all urlCharOk = true) :
    matchBody (alt ++ ']' :: '(' :: (url ++ ')' :: rest)) = some (url, rest) := by
  induction alt with
  | nil =>
    rw [List.nil_append, matchBody]
    have hcond : (']' : Char) = ']' ∧ (('(' :: (url ++ ')' :: rest)).head? = some '(') :=
      ⟨rfl, rfl⟩
    rw [if_pos hcond]
    simp only [List.tail_cons]
    rw [findCapture_exact url rest hurl]
  | cons c cs ih =>
    rw [List.all_cons, Bool.and_eq_true] at halt
    obtain ⟨hc, hcs⟩ := halt
    simp only [hasCloseOpen, Bool.or_eq_false_iff, Bool.and_eq_false_iff] at hco
    rw [List.cons_append, matchBody]
    have hcond : ¬(c = ']' ∧ ((cs ++ ']' :: '(' :: (url ++ ')' :: rest)).head? = some '(')) := by
      intro hand
      rcases hco.1 with hbad | hbad
      · rw [hand.1] at hbad; simp at hbad
      · cases cs with
        | nil => simp at hand
        | cons d ds =>
          rw [List.cons_append, List.head?_cons] at hand
          rw [List.head?_cons] at hbad
          rw [Option.some_inj.mp hand.2] at hbad
          simp at hbad
    rw [if_neg hcond]
    simp only [if_pos hc]
    exact ih hcs hco.2

/-- Scanning skips any prefix that contains no `![` pair, provided the
remainder starts with `!` (so no pair straddles the boundary). -/
theorem scanAux_append (sep l : List Char) (hsep : hasImageOpen sep = false)
    (hl : l.head? = some '!') :
    scanAux (sep ++ l) = scanAux l := by
  induction sep with
  | nil => rw [List.nil_append]
  | cons c cs ih =>
    simp only [hasImageOpen, Bool.or_eq_false_iff, Bool.and_eq_false_iff] at hsep
    rw [List.cons_append, scanAux]
    have hcond : ¬(c = '!' ∧ ((cs ++ l).head? = some '[')) := by
      intro hand
      rcases hsep.1 with hbad | hbad
      · rw [hand.1] at hbad; simp at hbad
      · cases cs with
        | nil =>
          rw [List.nil_append, hl] at hand
          simp at hand
        | cons d ds =>
          rw [List.cons_append, List.head?_cons] at hand
          rw [List.head?_cons] at hbad
          rw [Option.some_inj.mp hand.2] at hbad
          simp at hbad
    split
    · next r heq =>
        rw [if_neg hcond] at heq
        cases heq
    · exact ih hsep.2

/-- Scanning a text with no `![` pair yields no match at all. -/
theorem scanAux_eq_nil (l : List Char) (h : hasImageOpen l = false) : scanAux l = [] := by
  induction l with
  | nil => rw [scanAux]
  | cons c cs ih =>
    simp only [hasImageOpen, Bool.or_eq_false_iff, Bool.and_eq_false_iff] at h
    rw [scanAux]
    have hcond : ¬(c = '!' ∧ (cs.head? = some '[')) := by
      intro hand
      rcases h.1 with hbad | hbad
      · rw [hand.1] at hbad; simp at hbad
      · rw [hand.2] at hbad; simp at hbad
    split
    · next r heq =>
        rw [if_neg hcond] at heq
        cases heq
    · exact ih h.2

/-- One image occurrence inside a Markdown document: the separating text
before it, the alt text, and the URL. -/
structure ImageOcc where
  sep : List Char
  alt : List Char
  url : List Char
deriving DecidableEq

/-- Renders a document as separator / image / separator / image / ... /
trailing text, each image in Markdown image syntax. -/
def renderDoc : List ImageOcc → List Char → List Char
  | [], tail => tail
  | occ :: rest, tail =>
      occ.sep ++ '!' :: '[' :: (occ.alt ++ ']' :: '(' :: (occ.url ++ ')' :: renderDoc rest tail))

/-- Well-formedness of one occurrence: the separator contains no `![`
pair, the alt text is one line and contains no `](` pair, the URL is one
line and contains no closing parenthesis. -/
def occOk (occ : ImageOcc) : Bool :=
  !hasImageOpen occ.sep && occ.alt.all isDotChar && !hasCloseOpen occ.alt
    && occ.url.all urlCharOk

/-- Scanning a rendered document returns exactly its image URLs, in
document order. -/
theorem scanAux_renderDoc (occs : List ImageOcc) (tail : List Char)
    (hoccs : occs.all occOk = true) (htail : hasImageOpen tail = false) :
    scanAux (renderDoc occs tail) = occs.map ImageOcc.url := by
  induction occs with
  | nil => exact scanAux_eq_nil tail htail
  | cons occ rest ih =>
    rw [List.all_cons, Bool.and_eq_true] at hoccs
    obtain ⟨hocc, hrest⟩ := hoccs
    simp only [occOk, Bool.and_eq_true, Bool.not_eq_true'] at hocc
    obtain ⟨⟨⟨hsep, halt⟩, hco⟩, hurl⟩ := hocc
    rw [renderDoc,
      scanAux_append occ.sep
        ('!' :: '[' :: (occ.alt ++ ']' :: '(' :: (occ.url ++ ')' :: renderDoc rest tail)))
        hsep rfl,
      scanAux]
    have hcond : ('!' : Char) = '!' ∧
        (('[' :: (occ.alt ++ ']' :: '(' :: (occ.url ++ ')' :: renderDoc rest tail))).head?
          = some '[') := ⟨rfl, rfl⟩
    split
    · next r heq =>
        rw [if_pos hcond] at heq
        rw [List.tail_cons, matchBody_exact occ.alt occ.url _ halt hco hurl] at heq
        cases heq
        rw [List.map_cons]
        exact congrArg _ (ih hrest)
    · next heq =>
        rw [if_pos hcond] at heq
        rw [List.tail_cons, matchBody_exact occ.alt occ.url _ halt hco hurl] at heq
        cases heq

/-- C6: for every well-formed Markdown document, the image extractor
returns exactly the URL strings inside `![...](...)` occurrences, in
document order; text without image syntax (in particular the empty
string, non-image links and plain URLs living in the separators)
contributes nothing.  As a pure total function it has no side effects
and cannot fail. -/
theorem extractImageUrls_exact (occs : List ImageOcc) (tail : List Char)
    (hoccs : occs.all occOk = true) (htail : hasImageOpen tail = false) :
    extractImageUrls (String.mk (renderDoc occs tail))
        = occs.map (fun occ => String.mk occ.url)
  ∧ extractImageUrls "" = [] := by
  constructor
  · rw [extractImageUrls_eq_scanAux]
    rw [show (String.mk (renderDoc occs tail)).data = renderDoc occs tail from rfl]
    rw [scanAux_renderDoc occs tail hoccs htail, List.map_map]
    rfl
  · rw [extractImageUrls_eq_scanAux]
    rw [scanAux_eq_nil _ (by decide)]
    rfl

/-- Witness for C6: a document with a plain link, two images and a bare
URL; the extractor returns exactly the two image URLs in order. -/
theorem extractImageUrls_exact_witness :
    (([⟨("see [docs](https://d) then ").data, ("alt one").data, ("https://h/a.png").data⟩,
       ⟨(" and ").data, ("").data, ("https://h/b.jpg").data⟩] : List ImageOcc).all occOk = true)
  ∧ (hasImageOpen (" visit https://plain.example now").data = false)
  ∧ extractImageUrls (String.mk (renderDoc
      [⟨("see [docs](https://d) then ").data, ("alt one").data, ("https://h/a.png").data⟩,
       ⟨(" and ").data, ("").data, ("https://h/b.jpg").data⟩]
      (" visit https://plain.example now").data))
      = ([⟨("see [docs](https://d) then ").data, ("alt one").data, ("https://h/a.png").data⟩,
          ⟨(" and ").data, ("").data, ("https://h/b.jpg").data⟩] : List ImageOcc).map
          (fun occ => String.mk occ.url) :=
  ⟨by decide, by decide,
    (extractImageUrls_exact _ _ (by decide) (by decide)).1⟩

/-- A file system modelled as an association list from paths to file
contents (most recent write first). -/
structure FileSys where
  files : List (String × String)
deriving DecidableEq

/-- File-existence check, modelling `fs.access`. -/
def FileSys.hasFile (fs : FileSys) (p : String) : Bool :=
  (fs.files.find? (fun e => e.1 == p)).isSome

/-- File write, modelling `fs.writeFile`. -/
def FileSys.write (fs : FileSys) (p content : String) : FileSys :=
  { files := (p, content) :: fs.files }

/-- File read, modelling `fs.readFile` (`none` when the file is absent,
standing for the thrown error the handlers catch). -/
def FileSys.read (fs : FileSys) (p : String) : Option String :=
  (fs.files.find? (fun e => e.1 == p)).map (fun e => e.2)

/-- Modelled from node's `path.extname` as applied to a URL pathname: the
suffix of the path's last segment from its final dot; empty when that
segment has no dot or only its leading (dotfile) dot. -/
def extname (p : String) : String :=
  let basename := ((p.data.reverse.takeWhile (fun c => c != '/')).reverse)
  let tailDot := basename.reverse.takeWhile (fun c => c != '.')
  if tailDot.length + 1 ≤ basename.length then
    if tailDot.length + 1 = basename.length then ""
    else String.mk ('.' :: tailDot.reverse)
  else ""

/-- Helper for `urlPathname`: the characters after the first `://`. -/
def afterSchemeSep : List Char → Option (List Char)
  | [] => none
  | ':' :: '/' :: '/' :: rest => some rest
  | _ :: cs => afterSchemeSep cs

/-- Modelled from the WHATWG `URL` constructor as used by
`downloadImage`: for inputs shaped `scheme://authority/path?query#frag`
the `pathname` runs from the first `/` after the authority up to the
first `?` or `#` (it is `/` when the path is absent); an input without a
`://` separator is outside the modelled shape and makes the constructor
throw, modelled as `none`. -/
def urlPathname (url : String) : Option String :=
  match afterSchemeSep url.data with
  | none => none
  | some rest =>
    let afterAuth := rest.dropWhile (fun c => c != '/' && c != '?' && c != '#')
    match afterAuth with
    | '/' :: _ => some (String.mk (afterAuth.takeWhile (fun c => c != '?' && c != '#')))
    | _ => some "/"

/-- The directory for image downloads (`TEMP_DIR` in the source; the
concrete directory string is irrelevant to every property proved here). -/
def TEMP_DIR : String := "temp_images"

/-- Outcome of one `downloadImage` call: the returned local path (`none`
on failure), the file system afterwards, and the number of network
fetches performed during the call. -/
structure DownloadOutcome where
  result : Option String
  fs : FileSys
  fetches : Nat
deriving DecidableEq

/-- Embedding of `downloadImage` (src/index.ts lines 58-104).  `md5hex`
stands for node's `crypto` md5-hex digest (an external library, passed as
a parameter); `fetch` is the network oracle, with `none` modelling a
failed or non-2xx response.  Every error swallowed by the source's
`try/catch` becomes an explicit `none` result. -/
def downloadImage (md5hex : String → String) (fetch : String → Option String)
    (url : String) (fs : FileSys) : DownloadOutcome :=
  match urlPathname url with
  | none => { result := none, fs := fs, fetches := 0 }
  | some pathName =>
    let ext := jsOr (extname pathName) ".png"
    let filePath := TEMP_DIR ++ "/" ++ md5hex url ++ ext
    if fs.hasFile filePath then
      { result := some filePath, fs := fs, fetches := 0 }
    else
      match fetch url with
      | none => { result := none, fs := fs, fetches := 1 }
      | some body =>
        { result := some filePath, fs := fs.write filePath body, fetches := 1 }

/-- One image entry of the pipeline result: local path and source URL. -/
structure ImageEntry where
  path : String
  url : String
deriving DecidableEq

/-- Result of `processMarkdownWithImages`: the text, the image entries,
the file system afterwards and the total number of fetches. -/
structure ProcessOutcome where
  text : String
  images : List ImageEntry
  fs : FileSys
  fetches : Nat
deriving DecidableEq

/-- The download loop of `processMarkdownWithImages`: resolve each
extracted URL, keeping the successful ones.  The source starts the
downloads concurrently and pushes each success in completion order; the
model linearises them in extraction order, one of the possible completion
orders, which is faithful for every property proved here (text identity,
which downloads succeed, how many entries are kept). -/
def downloadAll (md5hex : String → String) (fetch : String → Option String) :
    List String → FileSys → (List ImageEntry × FileSys × Nat)
  | [], fs => ([], fs, 0)
  | u :: us, fs =>
    let o := downloadImage md5hex fetch u fs
    let rest := downloadAll md5hex fetch us o.fs
    (match o.result with
     | some p => { path := p, url := u } :: rest.1
     | none => rest.1,
     rest.2.1, o.fetches + rest.2.2)

/-- Embedding of `processMarkdownWithImages` (src/index.ts lines
107-126): empty (falsy) Markdown short-circuits; otherwise the text is
returned as-is together with the successfully downloaded images. -/
def processMarkdownWithImages (md5hex : String → String)
    (fetch : String → Option String) (markdown : String) (fs : FileSys) :
    ProcessOutcome :=
  if markdown = "" then { text := "", images := [], fs := fs, fetches := 0 }
  else
    let r := downloadAll md5hex fetch (extractImageUrls markdown) fs
    { text := markdown, images := r.1, fs := r.2.1, fetches := r.2.2 }

/-- The media-cache property exactly as claimed: any two successive
resolutions of any URL perform at most one fetch in total and agree on
the returned path. -/
def mediaCacheClaimAt (md5hex : String → String) (fetch : String → Option String)
    (url : String) (fs : FileSys) : Prop :=
  (downloadImage md5hex fetch url fs).fetches
      + (downloadImage md5hex fetch url (downloadImage md5hex fetch url fs).fs).fetches ≤ 1
  ∧ (downloadImage md5hex fetch url (downloadImage md5hex fetch url fs).fs).result
      = (downloadImage md5hex fetch url fs).result

/-- Counterexample to C3 as stated: when the fetch fails
(network error or non-2xx), nothing is cached, so resolving the same URL
twice performs two network fetches, not at most one. -/
theorem downloadImage_two_fetches_cex :
    ¬ mediaCacheClaimAt (fun _ => "h") (fun _ => none) "https://h/a.png" { files := [] } := by
  unfold mediaCacheClaimAt
  decide

/-- Branch lemma for `downloadImage`: cache hit, no fetch. -/
theorem downloadImage_hit (md5hex : String → String) (fetch : String → Option String)
    (url : String) (fs : FileSys) (pn : String) (hp : urlPathname url = some pn)
    (hf : fs.hasFile (TEMP_DIR ++ "/" ++ md5hex url ++ jsOr (extname pn) ".png") = true) :
    downloadImage md5hex fetch url fs
      = { result := some (TEMP_DIR ++ "/" ++ md5hex url ++ jsOr (extname pn) ".png"),
          fs := fs, fetches := 0 } := by
  simp only [downloadImage, hp, hf, if_true]

/-- Branch lemma for `downloadImage`: cache miss and failing fetch. -/
theorem downloadImage_miss_fail (md5hex : String → String) (fetch : String → Option String)
    (url : String) (fs : FileSys) (pn : String) (hp : urlPathname url = some pn)
    (hf : fs.hasFile (TEMP_DIR ++ "/" ++ md5hex url ++ jsOr (extname pn) ".png") = false)
    (hfetch : fetch url = none) :
    downloadImage md5hex fetch url fs = { result := none, fs := fs, fetches := 1 } := by
  simp only [downloadImage, hp, hf, hfetch]
  rfl

/-- Branch lemma for `downloadImage`: cache miss and successful fetch. -/
theorem downloadImage_miss_ok (md5hex : String → String) (fetch : String → Option String)
    (url : String) (fs : FileSys) (pn body : String) (hp : urlPathname url = some pn)
    (hf : fs.hasFile (TEMP_DIR ++ "/" ++ md5hex url ++ jsOr (extname pn) ".png") = false)
    (hfetch : fetch url = some body) :
    downloadImage md5hex fetch url fs
      = { result := some (TEMP_DIR ++ "/" ++ md5hex url ++ jsOr (extname pn) ".png"),
          fs := fs.write (TEMP_DIR ++ "/" ++ md5hex url ++ jsOr (extname pn) ".png") body,
          fetches := 1 } := by
  simp only [downloadImage, hp, hf, hfetch]
  rfl

/-- C3 (amended): resolving a URL twice performs at most one successful
network fetch: whenever the first resolution succeeds, the second
resolution performs no fetch at all and returns the same local path, and
that path is the deterministic one built from the URL's digest plus the
URL path's extension (default `.png`). -/
theorem downloadImage_idempotent (md5hex : String → String)
    (fetch : String → Option String) (url : String) (fs : FileSys) (p : String)
    (h : (downloadImage md5hex fetch url fs).result = some p) :
    (downloadImage md5hex fetch url (downloadImage md5hex fetch url fs).fs).fetches = 0
  ∧ (downloadImage md5hex fetch url (downloadImage md5hex fetch url fs).fs).result = some p
  ∧ (downloadImage md5hex fetch url fs).fetches ≤ 1
  ∧ ∃ pn, urlPathname url = some pn
        ∧ p = TEMP_DIR ++ "/" ++ md5hex url ++ jsOr (extname pn) ".png" := by
  cases hp : urlPathname url with
  | none =>
    rw [show downloadImage md5hex fetch url fs = { result := none, fs := fs, fetches := 0 } by
      simp only [downloadImage, hp]] at h
    cases h
  | some pn =>
    cases hf : fs.hasFile (TEMP_DIR ++ "/" ++ md5hex url ++ jsOr (extname pn) ".png") with
    | true =>
      have e1 := downloadImage_hit md5hex fetch url fs pn hp hf
      rw [e1] at h
      have hpe : TEMP_DIR ++ "/" ++ md5hex url ++ jsOr (extname pn) ".png" = p :=
        Option.some.inj h
      subst hpe
      have hfs : (downloadImage md5hex fetch url fs).fs = fs := by rw [e1]
      rw [hfs, e1]
      exact ⟨rfl, rfl, by simp, pn, rfl, rfl⟩
    | false =>
      cases hfetch : fetch url with
      | none =>
        rw [downloadImage_miss_fail md5hex fetch url fs pn hp hf hfetch] at h
        cases h
      | some body =>
        have e1 := downloadImage_miss_ok md5hex fetch url fs pn body hp hf hfetch
        rw [e1] at h
        have hpe : TEMP_DIR ++ "/" ++ md5hex url ++ jsOr (extname pn) ".png" = p :=
          Option.some.inj h
        subst hpe
        have hhit : (fs.write (TEMP_DIR ++ "/" ++ md5hex url ++ jsOr (extname pn) ".png")
            body).hasFile (TEMP_DIR ++ "/" ++ md5hex url ++ jsOr (extname pn) ".png") = true := by
          simp [FileSys.write, FileSys.hasFile, List.find?]
        have e2 := downloadImage_hit md5hex fetch url
          (fs.write (TEMP_DIR ++ "/" ++ md5hex url ++ jsOr (extname pn) ".png") body) pn hp hhit
        have hfs : (downloadImage md5hex fetch url fs).fs
            = fs.write (TEMP_DIR ++ "/" ++ md5hex url ++ jsOr (extname pn) ".png") body := by
          rw [e1]
        rw [hfs, e2, e1]
        exact ⟨rfl, rfl, by simp, pn, rfl, rfl⟩

/-- Witness for C3: a successful first resolution of a concrete URL, after
which the second resolution is a cache hit with no fetch. -/
theorem downloadImage_idempotent_witness :
    ((downloadImage (fun _ => "h") (fun _ => some "imgbytes") "https://h/a.png"
        { files := [] }).result = some "temp_images/h.png")
  ∧ ((downloadImage (fun _ => "h") (fun _ => some "imgbytes") "https://h/a.png"
        ((downloadImage (fun _ => "h") (fun _ => some "imgbytes") "https://h/a.png"
          { files := [] }).fs)).fetches = 0
    ∧ (downloadImage (fun _ => "h") (fun _ => some "imgbytes") "https://h/a.png"
        ((downloadImage (fun _ => "h") (fun _ => some "imgbytes") "https://h/a.png"
          { files := [] }).fs)).result = some "temp_images/h.png"
    ∧ (downloadImage (fun _ => "h") (fun _ => some "imgbytes") "https://h/a.png"
        { files := [] }).fetches ≤ 1
    ∧ ∃ pn, urlPathname "https://h/a.png" = some pn
          ∧ "temp_images/h.png" = TEMP_DIR ++ "/" ++ "h" ++ jsOr (extname pn) ".png") :=
  ⟨by decide,
    downloadImage_idempotent (fun _ => "h") (fun _ => some "imgbytes") "https://h/a.png"
      { files := [] } "temp_images/h.png" (by decide)⟩

/-- C4: the media resolution pipeline returns the input text unmodified,
and when exactly one of two extracted image references fails to download
the result keeps exactly one image entry, silently omitting the failed
one without aborting the other. -/
theorem processMarkdownWithImages_graceful (md5hex : String → String)
    (fetch : String → Option String) (markdown : String) (fs : FileSys) :
    (processMarkdownWithImages md5hex fetch markdown fs).text = markdown
  ∧ (∀ u1 u2, extractImageUrls markdown = [u1, u2] →
      ((downloadImage md5hex fetch u1 fs).result.isSome = true
          ∧ (downloadImage md5hex fetch u2
              (downloadImage md5hex fetch u1 fs).fs).result.isSome = false)
        ∨ ((downloadImage md5hex fetch u1 fs).result.isSome = false
          ∧ (downloadImage md5hex fetch u2
              (downloadImage md5hex fetch u1 fs).fs).result.isSome = true) →
      (processMarkdownWithImages md5hex fetch markdown fs).images.length = 1) := by
  constructor
  · unfold processMarkdownWithImages
    by_cases hm : markdown = ""
    · rw [if_pos hm, hm]
    · rw [if_neg hm]
  · intro u1 u2 hext hone
    have hm : ¬ markdown = "" := by
      intro hm
      rw [hm] at hext
      have : extractImageUrls "" = [] := by decide
      rw [this] at hext
      cases hext
    unfold processMarkdownWithImages
    rw [if_neg hm]
    simp only [hext]
    cases h1 : (downloadImage md5hex fetch u1 fs).result with
    | some p1 =>
      rcases hone with ⟨ha, hb⟩ | ⟨ha, hb⟩
      · cases h2 : (downloadImage md5hex fetch u2 (downloadImage md5hex fetch u1 fs).fs).result with
        | some p2 => rw [h2] at hb; simp at hb
        | none =>
          simp only [downloadAll, h1, h2, List.length_cons, List.length_nil]
      · rw [h1] at ha; simp at ha
    | none =>
      rcases hone with ⟨ha, hb⟩ | ⟨ha, hb⟩
      · rw [h1] at ha; simp at ha
      · cases h2 : (downloadImage md5hex fetch u2 (downloadImage md5hex fetch u1 fs).fs).result with
        | some p2 =>
          simp only [downloadAll, h1, h2, List.length_cons, List.length_nil]
        | none => rw [h2] at hb; simp at hb

/-- Witness for C4: a Markdown body with two images of which the second
fails to download; the text comes back unchanged and one image is kept. -/
theorem processMarkdownWithImages_graceful_witness :
    (extractImageUrls "![a](https://h/a.png) ![b](https://h/bad.png)"
        = ["https://h/a.png", "https://h/bad.png"])
  ∧ (processMarkdownWithImages (fun u => u)
        (fun u => if u = "https://h/bad.png" then none else some "data")
        "![a](https://h/a.png) ![b](https://h/bad.png)" { files := [] }).text
      = "![a](https://h/a.png) ![b](https://h/bad.png)"
  ∧ (processMarkdownWithImages (fun u => u)
        (fun u => if u = "https://h/bad.png" then none else some "data")
        "![a](https://h/a.png) ![b](https://h/bad.png)" { files := [] }).images.length = 1 := by
  refine ⟨by decide, ?_, ?_⟩
  · exact (processMarkdownWithImages_graceful (fun u => u)
      (fun u => if u = "https://h/bad.png" then none else some "data")
      "![a](https://h/a.png) ![b](https://h/bad.png)" { files := [] }).1
  · exact (processMarkdownWithImages_graceful (fun u => u)
      (fun u => if u = "https://h/bad.png" then none else some "data")
      "![a](https://h/a.png) ![b](https://h/bad.png)" { files := [] }).2
      "https://h/a.png" "https://h/bad.png" (by decide) (by decide)

/-- A user as consumed by the handlers (`id` for the viewer's filter,
`name` for comment authors, `displayName` for assignees). -/
structure LinearUser where
  id : String
  name : String
  displayName : String
deriving DecidableEq

/-- A comment as delivered by the tracker client: body text, optional
author, creation timestamp (kept as an opaque string). -/
structure LinearComment where
  body : String
  user : Option LinearUser
  createdAt : String
deriving DecidableEq

/-- The projection of a comment built inside `get_ticket`
(src/index.ts lines 187-194). -/
structure CommentDetail where
  body : String
  userName : String
  createdAt : String
deriving DecidableEq

/-- Embedding of the per-comment projection in `get_ticket`:
`user?.name || "Unknown"` falls back on a missing author and on an
empty author name. -/
def commentDetailOf (c : LinearComment) : CommentDetail :=
  { body := c.body
    userName := jsOr (match c.user with | some u => u.name | none => "") "Unknown"
    createdAt := c.createdAt }

/-- Embedding of the comment stage of `get_ticket` (src/index.ts lines
183-194): the delivered list is reversed in place, then projected. -/
def getTicketCommentDetails (delivered : List LinearComment) : List CommentDetail :=
  delivered.reverse.map commentDetailOf

/-- A workflow state as consumed by the handlers (the handlers read
`name`; the modelled search filter builder resolves names to `id`). -/
structure WorkflowState where
  id : String
  name : String
deriving DecidableEq

/-- A team as consumed by the handlers. -/
structure LinearTeam where
  id : String
  name : String
  key : String
deriving DecidableEq

/-- A child or parent issue as consumed by `get_my_issues`: the fields
the handler reads after awaiting the relation. -/
structure SubIssueRec where
  identifier : String
  title : String
  state : Option WorkflowState
  assignee : Option LinearUser
  priority : Option Int
deriving DecidableEq

/-- An issue as delivered by the tracker client, with its lazy relations
(`state`, `team`, `assignee`, `parent`, `children`) modelled as already
resolved optional fields. -/
structure LinearIssue where
  id : String
  identifier : String
  title : String
  description : Option String
  priority : Option Int
  createdAt : String
  updatedAt : String
  state : Option WorkflowState
  team : Option LinearTeam
  assignee : Option LinearUser
  parent : Option SubIssueRec
  children : List SubIssueRec
deriving DecidableEq

/-- The `SubIssue` projection built inside the `get_my_issues` mapper
(src/index.ts lines 331-346). -/
structure SubIssue where
  identifier : String
  title : String
  stateName : String
  assigneeName : String
  priority : String
deriving DecidableEq

/-- The per-issue record built by the `get_my_issues` mapper
(src/index.ts lines 349-359). -/
structure IssueDetail where
  id : String
  identifier : String
  title : String
  stateName : String
  teamName : String
  priority : String
  updatedAt : String
  parentIssue : Option String
  subIssues : List SubIssue
deriving DecidableEq

/-- Embedding of the sub-issue projection of the `get_my_issues` mapper
(src/index.ts lines 332-345). -/
def subIssueDetailOf (s : SubIssueRec) : SubIssue :=
  { identifier := s.identifier
    title := s.title
    stateName := jsOr (match s.state with | some st => st.name | none => "") "Unknown"
    assigneeName := jsOr (match s.assignee with | some u => u.displayName | none => "") "Unassigned"
    priority := formatPriority s.priority }

/-- Embedding of the `get_my_issues` mapper passed to `pMap`
(src/index.ts lines 313-360).  `fmtDate` stands for
`new Date(x).toLocaleString()`, a locale-dependent external call. -/
def enrichIssue (fmtDate : String → String) (issue : LinearIssue) : IssueDetail :=
  { id := issue.id
    identifier := issue.identifier
    title := issue.title
    stateName := jsOr (match issue.state with | some st => st.name | none => "") "Unknown"
    teamName := jsOr (match issue.team with | some t => t.name | none => "") "Unknown"
    priority := formatPriority issue.priority
    updatedAt := fmtDate issue.updatedAt
    parentIssue := (match issue.parent with | some p => some p.identifier | none => none)
    subIssues := issue.children.map subIssueDetailOf }

/-- State of the bounded-concurrency map: the slots (input indices)
started but not yet settled, the index of the next input to start, and
the result array. -/
structure PMapState (β : Type) where
  running : List Nat
  nextIdx : Nat
  results : List (Option β)
deriving DecidableEq

/-- Modelled from the spec: the `p-map` library called by `get_my_issues`
(src/index.ts lines 313 and 360, `concurrency: 3`) is an external
dependency; spec 4.5 describes it as a bounded-concurrency map that
starts up to `conc` mappers and writes each settled result at its input's
index.  Initial state: the first `min conc n` inputs are in flight. -/
def pMapInit (β : Type) (conc n : Nat) : PMapState β :=
  { running := List.range (min conc n)
    nextIdx := min conc n
    results := List.replicate n none }

/-- One completion step of the bounded-concurrency map: the schedule
value `k` picks which in-flight slot settles next (any of them may); its
result is written at the slot's own index and the next unstarted input,
if any, is started in its place. -/
def pMapStep (f : α → β) (inputs : List α) (st : PMapState β) (k : Nat) : PMapState β :=
  if st.running.length = 0 then st
  else
    { running := (st.running.take (k % st.running.length)
          ++ st.running.drop (k % st.running.length + 1))
        ++ (if st.nextIdx < inputs.length then [st.nextIdx] else [])
      nextIdx := if st.nextIdx < inputs.length then st.nextIdx + 1 else st.nextIdx
      results := st.results.set (st.running.getD (k % st.running.length) 0)
        ((inputs[st.running.getD (k % st.running.length) 0]?).map f) }

/-- Runs the bounded-concurrency map for `fuel` completion steps under
the given completion schedule. -/
def pMapLoop (f : α → β) (inputs : List α) : Nat → List Nat → PMapState β → PMapState β
  | 0, _, st => st
  | fuel + 1, sched, st =>
      pMapLoop f inputs fuel sched.tail (pMapStep f inputs st (sched.headD 0))

/-- A full run of the bounded-concurrency map: `inputs.length`
completions from the initial state. -/
def pMapRun (f : α → β) (inputs : List α) (conc : Nat) (sched : List Nat) : PMapState β :=
  pMapLoop f inputs inputs.length sched (pMapInit β conc inputs.length)

/-- Number of completions still owed: unstarted inputs plus in-flight
slots. -/
def pMapRemaining (inputs : List α) (st : PMapState β) : Nat :=
  (inputs.length - st.nextIdx) + st.running.length

/-- Invariant of the bounded-concurrency map: the result array keeps the
input arity, in-flight slots are started ones, every started slot that is
no longer in flight already holds the mapper's value for its own index,
and the machine only drains once everything was started. -/
def PMapInv (f : α → β) (inputs : List α) (st : PMapState β) : Prop :=
  st.results.length = inputs.length
  ∧ st.nextIdx ≤ inputs.length
  ∧ (∀ s ∈ st.running, s < st.nextIdx)
  ∧ (∀ j, j < st.nextIdx → j ∉ st.running → st.results[j]? = some ((inputs[j]?).map f))
  ∧ (st.running = [] → st.nextIdx = inputs.length)

/-- The initial state satisfies the invariant (for a positive
concurrency bound). -/
theorem pMapInit_inv (f : α → β) (inputs : List α) (conc : Nat) (hconc : 0 < conc) :
    PMapInv f inputs (pMapInit β conc inputs.length) := by
  refine ⟨List.length_replicate _ _, Nat.min_le_right _ _, ?_, ?_, ?_⟩
  · intro s hs
    exact List.mem_range.mp hs
  · intro j hj hnotin
    exact absurd (List.mem_range.mpr hj) hnotin
  · intro hrun
    have h0 : min conc inputs.length = 0 := by
      by_contra hne
      have hlt : 0 < min conc inputs.length := Nat.pos_of_ne_zero hne
      have hmem : (0 : Nat) ∈ List.range (min conc inputs.length) := List.mem_range.mpr hlt
      rw [show List.range (min conc inputs.length)
          = (pMapInit β conc inputs.length).running from rfl, hrun] at hmem
      exact List.not_mem_nil _ hmem
    rcases Nat.min_eq_zero_iff.mp h0 with hc | hn
    · omega
    · show min conc inputs.length = inputs.length
      omega

/-- Field equations of a non-trivial completion step. -/
theorem pMapStep_fields (f : α → β) (inputs : List α) (st : PMapState β) (k : Nat)
    (hne : st.running.length ≠ 0) :
    (pMapStep f inputs st k).running
        = (st.running.take (k % st.running.length)
            ++ st.running.drop (k % st.running.length + 1))
          ++ (if st.nextIdx < inputs.length then [st.nextIdx] else [])
  ∧ (pMapStep f inputs st k).nextIdx
        = (if st.nextIdx < inputs.length then st.nextIdx + 1 else st.nextIdx)
  ∧ (pMapStep f inputs st k).results
        = st.results.set (st.running.getD (k % st.running.length) 0)
            ((inputs[st.running.getD (k % st.running.length) 0]?).map f) := by
  unfold pMapStep
  rw [if_neg hne]
  exact ⟨rfl, rfl, rfl⟩

/-- One completion step preserves the invariant and settles exactly one
owed completion. -/
theorem pMapStep_inv (f : α → β) (inputs : List α) (st : PMapState β) (k : Nat)
    (hinv : PMapInv f inputs st) (hne : st.running.length ≠ 0) :
    PMapInv f inputs (pMapStep f inputs st k)
  ∧ pMapRemaining inputs (pMapStep f inputs st k) + 1 = pMapRemaining inputs st := by
  obtain ⟨hreslen, hnle, hrbound, hfilled, hdrain⟩ := hinv
  obtain ⟨hrun, hnext, hres⟩ := pMapStep_fields f inputs st k hne
  have hpos : k % st.running.length < st.running.length :=
    Nat.mod_lt _ (Nat.pos_of_ne_zero hne)
  have hslot : st.running.getD (k % st.running.length) 0
      = st.running[k % st.running.length] := List.getD_eq_getElem _ _ hpos
  rw [hslot] at hres
  have hslotmem : st.running[k % st.running.length] ∈ st.running := List.getElem_mem hpos
  have hslotlt : st.running[k % st.running.length] < st.nextIdx := hrbound _ hslotmem
  have hslotltN : st.running[k % st.running.length] < inputs.length := by omega
  have hdec : st.running.take (k % st.running.length)
      ++ st.running[k % st.running.length] :: st.running.drop (k % st.running.length + 1)
      = st.running := by
    rw [List.getElem_cons_drop _ _ hpos, List.take_append_drop]
  have hstilllen : (st.running.take (k % st.running.length)
      ++ st.running.drop (k % st.running.length + 1)).length = st.running.length - 1 := by
    rw [List.length_append, List.length_take, List.length_drop]
    omega
  have hmemsplit : ∀ j ∈ st.running, j = st.running[k % st.running.length]
      ∨ j ∈ st.running.take (k % st.running.length)
        ++ st.running.drop (k % st.running.length + 1) := by
    intro j hj
    rw [← hdec, List.mem_append, List.mem_cons] at hj
    rcases hj with hj | hj | hj
    · right; exact List.mem_append.mpr (Or.inl hj)
    · left; exact hj
    · right; exact List.mem_append.mpr (Or.inr hj)
  have hstillsub : ∀ j, j ∈ st.running.take (k % st.running.length)
      ++ st.running.drop (k % st.running.length + 1) → j ∈ st.running := by
    intro j hj
    rw [← hdec, List.mem_append, List.mem_cons]
    rcases List.mem_append.mp hj with hj2 | hj2
    · left; exact hj2
    · right; right; exact hj2
  refine ⟨⟨?_, ?_, ?_, ?_, ?_⟩, ?_⟩
  · rw [hres, List.length_set]
    exact hreslen
  · rw [hnext]
    by_cases hstart : st.nextIdx < inputs.length
    · rw [if_pos hstart]; omega
    · rw [if_neg hstart]; omega
  · intro s hs
    rw [hrun] at hs
    rw [hnext]
    by_cases hstart : st.nextIdx < inputs.length
    · rw [if_pos hstart] at hs ⊢
      rcases List.mem_append.mp hs with hs1 | hs1
      · have := hrbound s (hstillsub s hs1)
        omega
      · have hseq : s = st.nextIdx := by simpa using hs1
        omega
    · rw [if_neg hstart] at hs ⊢
      rw [List.append_nil] at hs
      exact hrbound s (hstillsub s hs)
  · intro j hj hnotin
    rw [hnext] at hj
    rw [hrun] at hnotin
    rw [hres]
    by_cases hjslot : st.running[k % st.running.length] = j
    · subst hjslot
      rw [List.getElem?_set_self (by omega)]
    · rw [List.getElem?_set_ne hjslot]
      by_cases hstart : st.nextIdx < inputs.length
      · rw [if_pos hstart] at hj hnotin
        have hjne : j ≠ st.nextIdx := by
          intro hcontra
          exact hnotin (List.mem_append.mpr (Or.inr (by
            rw [hcontra]
            exact List.mem_singleton.mpr rfl)))
        refine hfilled j (by omega) ?_
        intro hjin
        rcases hmemsplit j hjin with hcase | hcase
        · exact hjslot hcase.symm
        · exact hnotin (List.mem_append.mpr (Or.inl hcase))
      · rw [if_neg hstart] at hj hnotin
        rw [List.append_nil] at hnotin
        refine hfilled j hj ?_
        intro hjin
        rcases hmemsplit j hjin with hcase | hcase
        · exact hjslot hcase.symm
        · exact hnotin hcase
  · intro hempty
    rw [hrun] at hempty
    rw [hnext]
    by_cases hstart : st.nextIdx < inputs.length
    · rw [if_pos hstart] at hempty
      simp [List.append_eq_nil] at hempty
    · rw [if_neg hstart]
      omega
  · unfold pMapRemaining
    rw [hrun, hnext]
    by_cases hstart : st.nextIdx < inputs.length
    · rw [if_pos hstart, if_pos hstart, List.length_append, hstilllen]
      simp only [List.length_singleton]
      omega
    · rw [if_neg hstart, if_neg hstart, List.length_append, hstilllen]
      simp only [List.length_nil]
      omega

/-- Running for as many steps as there are owed completions drains the
machine while keeping the invariant. -/
theorem pMapLoop_complete (f : α → β) (inputs : List α) :
    ∀ (fuel : Nat) (sched : List Nat) (st : PMapState β),
      PMapInv f inputs st → pMapRemaining inputs st = fuel →
      PMapInv f inputs (pMapLoop f inputs fuel sched st)
    ∧ pMapRemaining inputs (pMapLoop f inputs fuel sched st) = 0 := by
  intro fuel
  induction fuel with
  | zero =>
    intro sched st hinv hrem
    exact ⟨hinv, hrem⟩
  | succ fuel ih =>
    intro sched st hinv hrem
    have hne : st.running.length ≠ 0 := by
      intro hzero
      have hempty : st.running = [] := List.length_eq_zero.mp hzero
      have := hinv.2.2.2.2 hempty
      simp only [pMapRemaining, hzero, this] at hrem
      omega
    obtain ⟨hinv2, hrem2⟩ := pMapStep_inv f inputs st (sched.headD 0) hinv hne
    exact ih sched.tail _ hinv2 (by omega)

/-- A full run of the bounded-concurrency map returns, for every
completion schedule, the mapper's image of the inputs in input order. -/
theorem pMapRun_results (f : α → β) (inputs : List α) (conc : Nat) (hconc : 0 < conc)
    (sched : List Nat) :
    (pMapRun f inputs conc sched).results = inputs.map (fun a => some (f a)) := by
  unfold pMapRun
  obtain ⟨hinv, hrem⟩ := pMapLoop_complete f inputs inputs.length sched
    (pMapInit β conc inputs.length) (pMapInit_inv f inputs conc hconc)
    (by
      simp only [pMapRemaining, pMapInit, List.length_range]
      have := Nat.min_le_right conc inputs.length
      omega)
  obtain ⟨hreslen, hnle, _, hfilled, hdrain⟩ := hinv
  have hempty : (pMapLoop f inputs inputs.length sched (pMapInit β conc inputs.length)).running
      = [] := by
    by_contra hne
    have h1 : (pMapLoop f inputs inputs.length sched (pMapInit β conc inputs.length)).running.length
        ≠ 0 := by
      intro hz
      exact hne (List.length_eq_zero.mp hz)
    simp only [pMapRemaining] at hrem
    omega
  have hnidx := hdrain hempty
  apply List.ext_getElem?
  intro j
  rw [List.getElem?_map]
  by_cases hj : j < inputs.length
  · rw [hfilled j (by rw [hnidx]; exact hj) (by rw [hempty]; exact List.not_mem_nil j)]
    rw [List.getElem?_eq_getElem hj]
    rfl
  · rw [List.getElem?_eq_none
        (show (pMapLoop f inputs inputs.length sched
          (pMapInit β conc inputs.length)).results.length ≤ j by omega),
      List.getElem?_eq_none (show inputs.length ≤ j by omega)]
    rfl

/-- C2: the enrichment fan-out of `get_my_issues` (the `pMap` call with
concurrency 3) produces, for every list of issues and every completion
schedule, a result list whose i-th entry is the enrichment of the i-th
input issue: input order is preserved regardless of completion order. -/
theorem getMyIssues_pMap_preserves_order (fmtDate : String → String)
    (issues : List LinearIssue) (sched : List Nat) :
    (pMapRun (enrichIssue fmtDate) issues 3 sched).results
      = issues.map (fun issue => some (enrichIssue fmtDate issue)) :=
  pMapRun_results (enrichIssue fmtDate) issues 3 (by omega) sched

/-- C5: the priority formatter is total: it maps `none` to "None",
0/1/2/3/4 to their labels, and every other integer `p` to
`"Priority " ++ toString p`. -/
theorem formatPriority_total :
    formatPriority none = "None"
  ∧ formatPriority (some 0) = "No priority"
  ∧ formatPriority (some 1) = "Urgent"
  ∧ formatPriority (some 2) = "High"
  ∧ formatPriority (some 3) = "Medium"
  ∧ formatPriority (some 4) = "Low"
  ∧ ∀ p : Int, p ≠ 0 → p ≠ 1 → p ≠ 2 → p ≠ 3 → p ≠ 4 →
      formatPriority (some p) = "Priority " ++ toString p := by
  refine ⟨rfl, rfl, rfl, rfl, rfl, rfl, ?_⟩
  intro p h0 h1 h2 h3 h4
  simp [formatPriority, h0, h1, h2, h3, h4]

/-- Witness for C5: the catch-all branch evaluated at the concrete
priority 7. -/
theorem formatPriority_total_witness : formatPriority (some 7) = "Priority 7" := by
  have h := formatPriority_total.2.2.2.2.2.2 7
    (by decide) (by decide) (by decide) (by decide) (by decide)
  rw [h]
  rfl

/-- C7: `get_my_issues` builds its filter so that `active` constrains the
workflow-state type to `{started, unstarted}`, `backlog`/`completed`/
`canceled` each add the corresponding single-type constraint, and `all`
adds no state constraint. -/
theorem getMyIssues_filter_state_cases (uid : String) :
    (buildMyIssuesFilters uid IssuesStateArg.active).stateFilter
        = some (StateTypeFilter.inTypes ["started", "unstarted"])
  ∧ (buildMyIssuesFilters uid IssuesStateArg.backlog).stateFilter
        = some (StateTypeFilter.eqType "backlog")
  ∧ (buildMyIssuesFilters uid IssuesStateArg.completed).stateFilter
        = some (StateTypeFilter.eqType "completed")
  ∧ (buildMyIssuesFilters uid IssuesStateArg.canceled).stateFilter
        = some (StateTypeFilter.eqType "canceled")
  ∧ (buildMyIssuesFilters uid IssuesStateArg.all).stateFilter = none := by
  exact ⟨rfl, rfl, rfl, rfl, rfl⟩

/-- C8: in the single-ticket view, the i-th rendered comment detail is
the (N-1-i)-th delivered comment's projection: comments are rendered in
the exact reverse of the delivery order. -/
theorem getTicket_comments_reversed (delivered : List LinearComment) (i : Nat)
    (h : i < delivered.length) :
    (getTicketCommentDetails delivered)[i]?
      = delivered[delivered.length - 1 - i]?.map commentDetailOf := by
  unfold getTicketCommentDetails
  rw [List.getElem?_map, List.getElem?_reverse h]

/-- Witness for C8: with two delivered comments, position 0 of the
rendered list shows the second (older) delivered comment. -/
theorem getTicket_comments_reversed_witness :
    (0 < ([⟨"newest", none, "t2"⟩, ⟨"oldest", none, "t1"⟩] : List LinearComment).length)
  ∧ (getTicketCommentDetails [⟨"newest", none, "t2"⟩, ⟨"oldest", none, "t1"⟩])[0]?
      = (([⟨"newest", none, "t2"⟩, ⟨"oldest", none, "t1"⟩] : List LinearComment)[
          ([⟨"newest", none, "t2"⟩, ⟨"oldest", none, "t1"⟩] : List LinearComment).length - 1 - 0]?).map
          commentDetailOf :=
  ⟨by decide, getTicket_comments_reversed _ 0 (by decide)⟩

/-- One content block of a tool response, the closed union the MCP
transport expects. -/
inductive ContentBlock where
  | text (text : String)
  | image (data : String) (mimeType : String)
deriving DecidableEq

/-- A tool response: the error flag (absent in the source's success
responses, modelled as `false`) and the content blocks. -/
structure ToolResponse where
  isError : Bool
  content : List ContentBlock
deriving DecidableEq

/-- The error-response shape every handler's failure paths build:
`isError: true` with a single text block. -/
def errorResponse (msg : String) : ToolResponse :=
  { isError := true, content := [ContentBlock.text msg] }

/-- Outcome of an awaited tracker-client call: a value, or a thrown
error with a message (caught by the handler's `try/catch`). -/
inductive Fallible (α : Type) where
  | ok (value : α)
  | thrown (msg : String)
deriving DecidableEq

/-- JavaScript truthiness of an optional string: present and non-empty. -/
def jsTruthy (s : Option String) : Bool :=
  match s with
  | some v => v != ""
  | none => false

/-- The created comment returned by `createComment` (only `id` is read). -/
structure CreatedComment where
  id : String
deriving DecidableEq

/-- The payload returned by `createIssue`. -/
structure CreateIssueResult where
  success : Bool
  issue : Option LinearIssue
deriving DecidableEq

/-- The creation parameters assembled by `create_issue`
(src/index.ts lines 1054-1061). -/
structure LinearIssueCreateParams where
  teamId : String
  title : String
  description : String
  priority : Option Int
  assigneeId : Option String
  parentId : Option String
deriving DecidableEq

/-- The arguments of `create_issue` after zod validation. -/
structure CreateIssueArgs where
  team_id : String
  title : String
  description : Option String
  priority : Option Int
  assignee_id : Option String
  parent_issue_id : Option String
deriving DecidableEq

/-- Oracle environment standing for the Linear client, the HTTP fetcher
and the date formatter: each field models one external call the handlers
await.  `issue`/`comments` are keyed by the ticket identifier,
`issuesQuery` by the built filter and page size. -/
structure LinearEnv where
  issue : String → Fallible (Option LinearIssue)
  comments : String → Fallible (List LinearComment)
  viewer : Fallible (Option LinearUser)
  issuesQuery : IssueFilterM → Nat → Fallible (List LinearIssue)
  teams : Fallible (List LinearTeam)
  createComment : String → String → Fallible (Option CreatedComment)
  createIssue : LinearIssueCreateParams → Fallible CreateIssueResult
  md5hex : String → String
  fetch : String → Option String
  fmtDate : String → String

/-- The image content block built from one resolved image in `get_ticket`
(src/index.ts lines 224-237): read the cached file (a read failure skips
the block) and attach the mime type chosen from the source URL.  The
base64 re-encoding of the bytes is an external bijection and is modelled
as the identity on the content string. -/
def mkImageBlock (fs : FileSys) (img : ImageEntry) : Option ContentBlock :=
  match fs.read img.path with
  | some data => some (ContentBlock.image data (mimeTypeFor img.url))
  | none => none

/-- The formatted ticket text of `get_ticket` (src/index.ts lines
197-218). -/
def formatTicket (fmtDate : String → String) (issue : LinearIssue)
    (description : String) (details : List CommentDetail) : String :=
  "\n# " ++ issue.identifier ++ ": " ++ issue.title
    ++ "\n\n## Status\nState: "
    ++ jsOr (match issue.state with | some st => st.name | none => "") "Unknown"
    ++ "\nPriority: " ++ formatPriority issue.priority
    ++ "\nAssignee: "
    ++ jsOr (match issue.assignee with | some u => u.displayName | none => "") "Unassigned"
    ++ "\nTeam: " ++ jsOr (match issue.team with | some t => t.name | none => "") "None"
    ++ "\nCreated: " ++ fmtDate issue.createdAt
    ++ "\nUpdated: " ++ fmtDate issue.updatedAt
    ++ "\n\n## Description\n" ++ jsOr description "No description provided."
    ++ "\n\n## Comments\n"
    ++ (if details.length > 0 then
          String.intercalate "\n\n" (details.map (fun d =>
            "### " ++ d.userName ++ " (" ++ fmtDate d.createdAt ++ ")\n"
              ++ jsOr d.body "No comment body"))
        else "No comments on this ticket.")
    ++ "\n"

/-- Embedding of the `get_ticket` handler (src/index.ts lines 148-251):
fetch the issue, its comments, resolve the description's images, then
emit the formatted text followed by one image block per readable cached
image.  A thrown client error is caught and converted to an error
block. -/
def getTicket (env : LinearEnv) (fs0 : FileSys) (ticket_id : String) : ToolResponse :=
  match env.issue ticket_id with
  | Fallible.thrown msg => errorResponse ("Error fetching ticket: " ++ msg)
  | Fallible.ok none => errorResponse ("Ticket " ++ ticket_id ++ " not found")
  | Fallible.ok (some issue) =>
    match env.comments ticket_id with
    | Fallible.thrown msg => errorResponse ("Error fetching ticket: " ++ msg)
    | Fallible.ok delivered =>
      let pr := processMarkdownWithImages env.md5hex env.fetch (issue.description.getD "") fs0
      let details := getTicketCommentDetails delivered
      { isError := false
        content := ContentBlock.text (formatTicket env.fmtDate issue pr.text details)
          :: pr.images.filterMap (mkImageBlock pr.fs) }

/-- The literal name of a `get_my_issues` state argument, as interpolated
into the handler's messages. -/
def stateArgName : IssuesStateArg → String
  | IssuesStateArg.active => "active"
  | IssuesStateArg.backlog => "backlog"
  | IssuesStateArg.completed => "completed"
  | IssuesStateArg.canceled => "canceled"
  | IssuesStateArg.all => "all"

/-- One issue's lines in the `get_my_issues` listing (src/index.ts lines
366-383). -/
def formatIssueDetail (d : IssueDetail) : String :=
  let base := "- **" ++ d.identifier ++ "**: " ++ d.title
    ++ "\n  Status: " ++ d.stateName ++ " | Team: " ++ d.teamName
    ++ " | Priority: " ++ d.priority ++ " | Updated: " ++ d.updatedAt
  let base2 := if jsTruthy d.parentIssue
    then base ++ "\n  Parent: " ++ (d.parentIssue.getD "")
    else base
  if d.subIssues.length > 0 then
    base2 ++ "\n  Sub-issues:" ++ String.join (d.subIssues.map (fun s =>
      "\n    - **" ++ s.identifier ++ "**: " ++ s.title
        ++ "\n      Status: " ++ s.stateName ++ " | Assignee: " ++ s.assigneeName
        ++ " | Priority: " ++ s.priority))
  else base2

/-- The formatted listing of `get_my_issues` (src/index.ts lines
363-386). -/
def formatIssueList (stateArg : IssuesStateArg) (details : List IssueDetail) : String :=
  "\n# Your " ++ stateArgName stateArg ++ " Linear Issues ("
    ++ toString details.length ++ ")\n\n"
    ++ String.intercalate "\n\n" (details.map formatIssueDetail)
    ++ "\n\nFor more details on any issue, use the get_ticket tool with the issue ID.\n"

/-- Embedding of the `get_my_issues` handler (src/index.ts lines
262-402): resolve the viewer, query issues with the built filter and page
size 20, enrich them through the concurrency-3 map (`sched` is the
completion schedule; by `pMapRun_results` every slot is filled, so the
filled slots are collected in order), and emit one text block. -/
def getMyIssues (env : LinearEnv) (stateArg : IssuesStateArg) (sched : List Nat) :
    ToolResponse :=
  match env.viewer with
  | Fallible.thrown msg => errorResponse ("Error fetching assigned issues: " ++ msg)
  | Fallible.ok none => errorResponse "Could not determine the current user"
  | Fallible.ok (some user) =>
    match env.issuesQuery (buildMyIssuesFilters user.id stateArg) 20 with
    | Fallible.thrown msg => errorResponse ("Error fetching assigned issues: " ++ msg)
    | Fallible.ok issues =>
      if issues.length = 0 then
        { isError := false
          content := [ContentBlock.text ("No " ++ stateArgName stateArg
            ++ " issues found assigned to you.")] }
      else
        let details := (pMapRun (enrichIssue env.fmtDate) issues 3 sched).results.filterMap id
        { isError := false
          content := [ContentBlock.text (formatIssueList stateArg details)] }

/-- Embedding of the `add_comment` handler (src/index.ts lines
405-454). -/
def addComment (env : LinearEnv) (ticket_id comment : String) : ToolResponse :=
  match env.issue ticket_id with
  | Fallible.thrown msg => errorResponse ("Error adding comment: " ++ msg)
  | Fallible.ok none => errorResponse ("Ticket " ++ ticket_id ++ " not found")
  | Fallible.ok (some issue) =>
    match env.createComment issue.id comment with
    | Fallible.thrown msg => errorResponse ("Error adding comment: " ++ msg)
    | Fallible.ok none => errorResponse "Failed to create comment"
    | Fallible.ok (some newComment) =>
      { isError := false
        content := [ContentBlock.text ("Successfully added comment to " ++ ticket_id
          ++ ". Comment ID: " ++ newComment.id)] }

/-- The formatted summary of a freshly created issue (src/index.ts lines
513-527). -/
def formatCreatedIssue (fmtDate : String → String) (issue : LinearIssue) : String :=
  "\n# Issue Created: " ++ issue.identifier ++ " - " ++ issue.title
    ++ "\n\nStatus: "
    ++ jsOr (match issue.state with | some st => st.name | none => "") "Unknown"
    ++ "\nTeam: " ++ jsOr (match issue.team with | some t => t.name | none => "") "Unknown"
    ++ "\nPriority: " ++ formatPriority issue.priority
    ++ "\nAssignee: "
    ++ jsOr (match issue.assignee with | some u => u.displayName | none => "") "Unassigned"
    ++ "\n"
    ++ (match issue.parent with
        | some p => "Parent Issue: " ++ p.identifier ++ " - " ++ p.title
        | none => "")
    ++ "\nCreated: " ++ fmtDate issue.createdAt
    ++ "\n\n## Description\n" ++ jsOr (issue.description.getD "") "No description provided."
    ++ "\n\nUse the get_ticket tool with ID " ++ issue.identifier
    ++ " to view this issue in detail.\n"

/-- The creation-and-summary tail of the `create_issue` handler
(src/index.ts lines 493-531): create the issue, check
`success`/`issue`, then format the summary. -/
def createIssueFinish (env : LinearEnv) (params : LinearIssueCreateParams) : ToolResponse :=
  match env.createIssue params with
  | Fallible.thrown msg => errorResponse ("Error creating issue: " ++ msg)
  | Fallible.ok res =>
    if res.success = false then errorResponse "Failed to create issue"
    else
      match res.issue with
      | none => errorResponse "Failed to create issue"
      | some issue =>
        { isError := false
          content := [ContentBlock.text (formatCreatedIssue env.fmtDate issue)] }

/-- Embedding of the `create_issue` handler (src/index.ts lines
457-543): optionally resolve the parent issue identifier to its id, then
create and summarize. -/
def createIssue (env : LinearEnv) (args : CreateIssueArgs) : ToolResponse :=
  let base : LinearIssueCreateParams :=
    { teamId := args.team_id, title := args.title
      description := args.description.getD ""
      priority := args.priority, assigneeId := args.assignee_id, parentId := none }
  if jsTruthy args.parent_issue_id then
    match env.issue (args.parent_issue_id.getD "") with
    | Fallible.thrown msg => errorResponse ("Error creating issue: " ++ msg)
    | Fallible.ok none =>
        errorResponse ("Parent issue " ++ args.parent_issue_id.getD "" ++ " not found")
    | Fallible.ok (some parent) =>
        createIssueFinish env { base with parentId := some parent.id }
  else
    createIssueFinish env base

/-- Embedding of the `get_teams` handler (src/index.ts lines 546-583). -/
def getTeams (env : LinearEnv) : ToolResponse :=
  match env.teams with
  | Fallible.thrown msg => errorResponse ("Error fetching teams: " ++ msg)
  | Fallible.ok teams =>
    if teams.length = 0 then
      { isError := false
        content := [ContentBlock.text "No teams found in this workspace."] }
    else
      { isError := false
        content := [ContentBlock.text ("\n# Available Linear Teams\n\n"
          ++ String.intercalate "\n"
              (teams.map (fun t => "- **" ++ t.name ++ "** (ID: " ++ t.id ++ ")"))
          ++ "\n\nUse the team ID when creating a new issue with the create_issue tool.\n")] }

/-- A cycle as consumed by the modelled search filter builder. -/
structure LinearCycle where
  id : String
  name : String
deriving DecidableEq

/-- The arguments of `search_issues` after validation (spec §6). -/
structure SearchIssuesArgs where
  is_unassigned : Option Bool
  team_identifier : Option String
  status : Option String
  is_current_cycle : Option Bool
  limit : Option Nat
deriving DecidableEq

/-- Modelled from the spec: the `SearchPredicate` of spec §3 — the
constraints the search filter builder accumulates, each already resolved
to an internal id (never a human-readable name). -/
structure SearchPredicate where
  assigneeNull : Option Bool
  teamId : Option String
  stateId : Option String
  cycleId : Option String
deriving DecidableEq

/-- Modelled from the spec: the oracle environment of the `search_issues`
tool, which the specification describes (§4.6, §6) but which is absent
from the source tree.  Workflow states and active cycles are scoped to an
optional team id; `issuesQuery` is the final paged issue query. -/
structure SearchEnv where
  teams : Fallible (List LinearTeam)
  workflowStates : Option String → Fallible (List WorkflowState)
  activeCycles : Option String → Fallible (List LinearCycle)
  issuesQuery : SearchPredicate → Nat → Fallible (List LinearIssue)

/-- Modelled from the spec: the final stage of `search_issues` — build
the predicate from the resolved ids and run the paged issue query.  The
second component counts issue queries performed. -/
def searchIssuesQuery (env : SearchEnv) (args : SearchIssuesArgs) (lim : Nat)
    (teamId stateId cycleId : Option String) : ToolResponse × Nat :=
  let pred : SearchPredicate :=
    { assigneeNull := args.is_unassigned, teamId := teamId
      stateId := stateId, cycleId := cycleId }
  match env.issuesQuery pred lim with
  | Fallible.thrown msg => (errorResponse ("Error searching issues: " ++ msg), 1)
  | Fallible.ok issues =>
    ({ isError := false
       content := [ContentBlock.text ("Found " ++ toString issues.length ++ " issues.")] }, 1)

/-- Modelled from the spec: the current-cycle stage of `search_issues` —
with `is_current_cycle` set, look up the active cycles (scoped to the
team if any); zero active cycles is a non-error informational response
and no issue query runs (spec §4.6). -/
def searchIssuesCycle (env : SearchEnv) (args : SearchIssuesArgs) (lim : Nat)
    (teamId stateId : Option String) : ToolResponse × Nat :=
  match args.is_current_cycle with
  | some true =>
    match env.activeCycles teamId with
    | Fallible.thrown msg => (errorResponse ("Error searching issues: " ++ msg), 0)
    | Fallible.ok cycles =>
      match cycles.head? with
      | none =>
        ({ isError := false
           content := [ContentBlock.text "No current cycle found."] }, 0)
      | some cyc => searchIssuesQuery env args lim teamId stateId (some cyc.id)
  | _ => searchIssuesQuery env args lim teamId stateId none

/-- Modelled from the spec: the status stage of `search_issues` — resolve
the status name to a workflow-state id by case-insensitive exact name
match, scoped to the resolved team; no match is a tool-level error naming
the status and no issue query runs (spec §4.6). -/
def searchIssuesStatus (env : SearchEnv) (args : SearchIssuesArgs) (lim : Nat)
    (teamId : Option String) : ToolResponse × Nat :=
  match args.status with
  | some statusName =>
    match env.workflowStates teamId with
    | Fallible.thrown msg => (errorResponse ("Error searching issues: " ++ msg), 0)
    | Fallible.ok states =>
      match states.find? (fun st => strToLower st.name == strToLower statusName) with
      | none => (errorResponse ("Status \"" ++ statusName ++ "\" not found"), 0)
      | some st => searchIssuesCycle env args lim teamId (some st.id)
  | none => searchIssuesCycle env args lim teamId none

/-- Modelled from the spec: the `search_issues` tool (spec §4.6, §6, §8),
described by the specification but absent from the source tree.  The page
size is clamped to [1,100] with default 20; `team_identifier` is resolved
by listing all teams and matching the short code case-insensitively, and
a missing match is a tool-level error naming the key, before any issue
query.  The second component counts issue queries performed. -/
def searchIssues (env : SearchEnv) (args : SearchIssuesArgs) : ToolResponse × Nat :=
  let lim := min 100 (max 1 (args.limit.getD 20))
  match args.team_identifier with
  | some key =>
    match env.teams with
    | Fallible.thrown msg => (errorResponse ("Error searching issues: " ++ msg), 0)
    | Fallible.ok teams =>
      match teams.find? (fun t => strToLower t.key == strToLower key) with
      | none => (errorResponse ("Team \"" ++ key ++ "\" not found"), 0)
      | some team => searchIssuesStatus env args lim (some team.id)
  | none => searchIssuesStatus env args lim none

/-- A response whose content is non-empty and starts with a text block. -/
def headIsText (r : ToolResponse) : Prop :=
  r.content ≠ [] ∧ ∃ s, r.content.head? = some (ContentBlock.text s)

/-- Every error response starts with its text block. -/
theorem errorResponse_headIsText (msg : String) : headIsText (errorResponse msg) :=
  ⟨List.cons_ne_nil _ _, msg, rfl⟩

/-- Every `get_ticket` response starts with a text block. -/
theorem getTicket_headIsText (env : LinearEnv) (fs0 : FileSys) (tid : String) :
    headIsText (getTicket env fs0 tid) := by
  unfold getTicket
  cases env.issue tid with
  | thrown msg => exact errorResponse_headIsText _
  | ok oissue =>
    cases oissue with
    | none => exact errorResponse_headIsText _
    | some issue =>
      cases env.comments tid with
      | thrown msg => exact errorResponse_headIsText _
      | ok delivered => exact ⟨List.cons_ne_nil _ _, _, rfl⟩

/-- Every `get_my_issues` response starts with a text block. -/
theorem getMyIssues_headIsText (env : LinearEnv) (stateArg : IssuesStateArg)
    (sched : List Nat) : headIsText (getMyIssues env stateArg sched) := by
  unfold getMyIssues
  cases env.viewer with
  | thrown msg => exact errorResponse_headIsText _
  | ok ouser =>
    cases ouser with
    | none => exact errorResponse_headIsText _
    | some user =>
      dsimp only
      cases env.issuesQuery (buildMyIssuesFilters user.id stateArg) 20 with
      | thrown msg => exact errorResponse_headIsText _
      | ok issues =>
        dsimp only
        by_cases hz : issues.length = 0
        · rw [if_pos hz]
          exact ⟨List.cons_ne_nil _ _, _, rfl⟩
        · rw [if_neg hz]
          exact ⟨List.cons_ne_nil _ _, _, rfl⟩

/-- Every `add_comment` response starts with a text block. -/
theorem addComment_headIsText (env : LinearEnv) (tid comment : String) :
    headIsText (addComment env tid comment) := by
  unfold addComment
  cases env.issue tid with
  | thrown msg => exact errorResponse_headIsText _
  | ok oissue =>
    cases oissue with
    | none => exact errorResponse_headIsText _
    | some issue =>
      dsimp only
      cases env.createComment issue.id comment with
      | thrown msg => exact errorResponse_headIsText _
      | ok onew =>
        cases onew with
        | none => exact errorResponse_headIsText _
        | some newComment => exact ⟨List.cons_ne_nil _ _, _, rfl⟩

/-- Every `create_issue` creation tail starts with a text block. -/
theorem createIssueFinish_headIsText (env : LinearEnv)
    (params : LinearIssueCreateParams) : headIsText (createIssueFinish env params) := by
  unfold createIssueFinish
  cases env.createIssue params with
  | thrown msg => exact errorResponse_headIsText _
  | ok res =>
    dsimp only
    by_cases hs : res.success = false
    · rw [if_pos hs]
      exact errorResponse_headIsText _
    · rw [if_neg hs]
      cases res.issue with
      | none => exact errorResponse_headIsText _
      | some issue => exact ⟨List.cons_ne_nil _ _, _, rfl⟩

/-- Every `create_issue` response starts with a text block. -/
theorem createIssue_headIsText (env : LinearEnv) (args : CreateIssueArgs) :
    headIsText (createIssue env args) := by
  unfold createIssue
  by_cases hp : jsTruthy args.parent_issue_id = true
  · rw [if_pos hp]
    cases env.issue (args.parent_issue_id.getD "") with
    | thrown msg => exact errorResponse_headIsText _
    | ok oparent =>
      cases oparent with
      | none => exact errorResponse_headIsText _
      | some parent => exact createIssueFinish_headIsText _ _
  · rw [if_neg hp]
    exact createIssueFinish_headIsText _ _

/-- Every `get_teams` response starts with a text block. -/
theorem getTeams_headIsText (env : LinearEnv) : headIsText (getTeams env) := by
  unfold getTeams
  cases env.teams with
  | thrown msg => exact errorResponse_headIsText _
  | ok teams =>
    dsimp only
    by_cases hz : teams.length = 0
    · rw [if_pos hz]
      exact ⟨List.cons_ne_nil _ _, _, rfl⟩
    · rw [if_neg hz]
      exact ⟨List.cons_ne_nil _ _, _, rfl⟩

/-- C10: for every oracle environment and every argument, each of the
five registered tools returns non-empty content whose first element is a
text block, on success and on error alike; image blocks, when present,
can therefore only follow that initial text block. -/
theorem allTools_first_block_is_text (env : LinearEnv) (fs0 : FileSys)
    (tid tid2 comment : String) (stateArg : IssuesStateArg) (sched : List Nat)
    (args : CreateIssueArgs) :
    headIsText (getTicket env fs0 tid)
  ∧ headIsText (getMyIssues env stateArg sched)
  ∧ headIsText (addComment env tid2 comment)
  ∧ headIsText (createIssue env args)
  ∧ headIsText (getTeams env) :=
  ⟨getTicket_headIsText env fs0 tid,
   getMyIssues_headIsText env stateArg sched,
   addComment_headIsText env tid2 comment,
   createIssue_headIsText env args,
   getTeams_headIsText env⟩

/-- The mime chooser takes exactly the two values, jpeg precisely on the
lowercased `.jpg`/`.jpeg` suffixes. -/
theorem mimeTypeFor_cases (url : String) :
    (mimeTypeFor url = "image/jpeg"
      ↔ (strEndsWith (strToLower url) ".jpg" = true ∨ strEndsWith (strToLower url) ".jpeg" = true))
  ∧ (mimeTypeFor url = "image/png"
      ↔ ¬ (strEndsWith (strToLower url) ".jpg" = true ∨ strEndsWith (strToLower url) ".jpeg" = true))
  ∧ (mimeTypeFor url = "image/jpeg" ∨ mimeTypeFor url = "image/png") := by
  unfold mimeTypeFor
  by_cases hc : (strEndsWith (strToLower url) ".jpg" || strEndsWith (strToLower url) ".jpeg") = true
  · rw [if_pos hc]
    rw [Bool.or_eq_true] at hc
    exact ⟨⟨fun _ => hc, fun _ => rfl⟩,
      ⟨fun he => absurd he (by decide), fun hn => absurd hc hn⟩, Or.inl rfl⟩
  · rw [if_neg hc]
    rw [Bool.or_eq_true] at hc
    exact ⟨⟨fun he => absurd he (by decide), fun hj => absurd hj hc⟩,
      ⟨fun _ => hc, fun _ => rfl⟩, Or.inr rfl⟩

/-- C9: every image content block returned by `get_ticket` comes from one
of the resolved description images and carries the mime type chosen from
that image's source URL: exactly `image/jpeg` when the lowercased URL
ends in `.jpg` or `.jpeg`, and exactly `image/png` for every other URL;
no other mime type ever occurs. -/
theorem getTicket_image_mimeTypes (env : LinearEnv) (fs0 : FileSys) (tid : String)
    (data mime : String)
    (hb : ContentBlock.image data mime ∈ (getTicket env fs0 tid).content) :
    ∃ md img,
      img ∈ (processMarkdownWithImages env.md5hex env.fetch md fs0).images
      ∧ (processMarkdownWithImages env.md5hex env.fetch md fs0).fs.read img.path = some data
      ∧ mime = mimeTypeFor img.url
      ∧ (mime = "image/jpeg"
          ↔ (strEndsWith (strToLower img.url) ".jpg" = true ∨ strEndsWith (strToLower img.url) ".jpeg" = true))
      ∧ (mime = "image/png"
          ↔ ¬ (strEndsWith (strToLower img.url) ".jpg" = true ∨ strEndsWith (strToLower img.url) ".jpeg" = true))
      ∧ (mime = "image/jpeg" ∨ mime = "image/png") := by
  unfold getTicket at hb
  cases hiss : env.issue tid with
  | thrown msg =>
    rw [hiss] at hb
    simp [errorResponse] at hb
  | ok oissue =>
    rw [hiss] at hb
    cases oissue with
    | none => simp [errorResponse] at hb
    | some issue =>
      cases hcom : env.comments tid with
      | thrown msg =>
        rw [hcom] at hb
        simp [errorResponse] at hb
      | ok delivered =>
        rw [hcom] at hb
        simp only [List.mem_cons] at hb
        rcases hb with hb | hb
        · cases hb
        · obtain ⟨img, himg, hmk⟩ := List.mem_filterMap.mp hb
          unfold mkImageBlock at hmk
          cases hread : (processMarkdownWithImages env.md5hex env.fetch
              (issue.description.getD "") fs0).fs.read img.path with
          | none => rw [hread] at hmk; cases hmk
          | some d0 =>
            rw [hread] at hmk
            have hinj := Option.some.inj hmk
            have hdata : d0 = data := by
              have hproj := congrArg (fun b => match b with
                | ContentBlock.image d _ => d
                | ContentBlock.text t => t) hinj
              simpa using hproj
            have hmime : mimeTypeFor img.url = mime := by
              have hproj := congrArg (fun b => match b with
                | ContentBlock.image _ m => m
                | ContentBlock.text t => t) hinj
              simpa using hproj
            obtain ⟨hiff1, hiff2, hor⟩ := mimeTypeFor_cases img.url
            rw [hmime] at hiff1 hiff2 hor
            exact ⟨issue.description.getD "", img, himg,
              by rw [← hdata]; exact hread, hmime.symm, hiff1, hiff2, hor⟩

/-- C1: invoking the modelled `search_issues` with `team_identifier`
`"ZZZ"` when no team's short code matches it case-insensitively returns
an error content block whose message names `"ZZZ"`, and no issue query is
performed in that invocation. -/
theorem searchIssues_unknown_team (env : SearchEnv) (teams : List LinearTeam)
    (args : SearchIssuesArgs)
    (hteams : env.teams = Fallible.ok teams)
    (hnomatch : ∀ t ∈ teams, (strToLower t.key == strToLower "ZZZ") = false)
    (hkey : args.team_identifier = some "ZZZ") :
    (searchIssues env args).1.isError = true
  ∧ (searchIssues env args).1.content
      = [ContentBlock.text ("Team \"" ++ "ZZZ" ++ "\" not found")]
  ∧ (∃ pre post, "Team \"" ++ "ZZZ" ++ "\" not found" = pre ++ "ZZZ" ++ post)
  ∧ (searchIssues env args).2 = 0 := by
  have hfind : teams.find? (fun t => strToLower t.key == strToLower "ZZZ") = none :=
    List.find?_eq_none.mpr (fun t ht => by rw [hnomatch t ht]; exact Bool.false_ne_true)
  unfold searchIssues
  rw [hkey, hteams]
  dsimp only
  rw [hfind]
  exact ⟨rfl, rfl, ⟨"Team \"", "\" not found", rfl⟩, rfl⟩

/-- A concrete ticket for the witnesses: its description holds one
`.gif` image reference. -/
def cexIssue : LinearIssue :=
  { id := "uuid-1", identifier := "T-1", title := "Title"
    description := some "![x](http://h/p.gif)"
    priority := some 2, createdAt := "c", updatedAt := "u"
    state := none, team := none, assignee := none, parent := none, children := [] }

/-- A concrete oracle environment for the witnesses: every ticket lookup
returns `cexIssue`, every fetch succeeds with body `"d"`. -/
def cexEnv : LinearEnv :=
  { issue := fun _ => Fallible.ok (some cexIssue)
    comments := fun _ => Fallible.ok []
    viewer := Fallible.ok none
    issuesQuery := fun _ _ => Fallible.ok []
    teams := Fallible.ok []
    createComment := fun _ _ => Fallible.ok none
    createIssue := fun _ => Fallible.ok { success := false, issue := none }
    md5hex := fun _ => "k"
    fetch := fun _ => some "d"
    fmtDate := fun s => s }

/-- Witness for C9: the concrete ticket's `.gif` image yields an image
block whose mime type is `image/png`. -/
theorem getTicket_image_mimeTypes_witness :
    (ContentBlock.image "d" "image/png" ∈ (getTicket cexEnv { files := [] } "T-1").content)
  ∧ ∃ md img,
      img ∈ (processMarkdownWithImages cexEnv.md5hex cexEnv.fetch md { files := [] }).images
      ∧ (processMarkdownWithImages cexEnv.md5hex cexEnv.fetch md
            { files := [] }).fs.read img.path = some "d"
      ∧ "image/png" = mimeTypeFor img.url
      ∧ ("image/png" = "image/jpeg"
          ↔ (strEndsWith (strToLower img.url) ".jpg" = true ∨ strEndsWith (strToLower img.url) ".jpeg" = true))
      ∧ ("image/png" = "image/png"
          ↔ ¬ (strEndsWith (strToLower img.url) ".jpg" = true
                ∨ strEndsWith (strToLower img.url) ".jpeg" = true))
      ∧ ("image/png" = "image/jpeg" ∨ "image/png" = "image/png") :=
  ⟨by decide,
    getTicket_image_mimeTypes cexEnv { files := [] } "T-1" "d" "image/png" (by decide)⟩

/-- Modelled from the spec: a concrete search environment for the C1
witness, with one team whose short code is "ENG". -/
def cexSearchEnv : SearchEnv :=
  { teams := Fallible.ok [{ id := "team-1", name := "Engineering", key := "ENG" }]
    workflowStates := fun _ => Fallible.ok []
    activeCycles := fun _ => Fallible.ok []
    issuesQuery := fun _ _ => Fallible.ok [] }

/-- Witness for C1: searching with `team_identifier` "ZZZ" against a
workspace whose only team key is "ENG" errors naming "ZZZ" and performs
no issue query. -/
theorem searchIssues_unknown_team_witness :
    (cexSearchEnv.teams
        = Fallible.ok [{ id := "team-1", name := "Engineering", key := "ENG" }])
  ∧ (∀ t ∈ ([{ id := "team-1", name := "Engineering", key := "ENG" }] : List LinearTeam),
        (strToLower t.key == strToLower "ZZZ") = false)
  ∧ (searchIssues cexSearchEnv
        { is_unassigned := none, team_identifier := some "ZZZ"
          status := none, is_current_cycle := none, limit := none }).1.isError = true
  ∧ (searchIssues cexSearchEnv
        { is_unassigned := none, team_identifier := some "ZZZ"
          status := none, is_current_cycle := none, limit := none }).1.content
      = [ContentBlock.text ("Team \"" ++ "ZZZ" ++ "\" not found")]
  ∧ (searchIssues cexSearchEnv
        { is_unassigned := none, team_identifier := some "ZZZ"
          status := none, is_current_cycle := none, limit := none }).2 = 0 :=
  ⟨rfl, by decide,
    (searchIssues_unknown_team cexSearchEnv
      [{ id := "team-1", name := "Engineering", key := "ENG" }]
      { is_unassigned := none, team_identifier := some "ZZZ"
        status := none, is_current_cycle := none, limit := none }
      rfl (by decide) rfl).1,
    (searchIssues_unknown_team cexSearchEnv
      [{ id := "team-1", name := "Engineering", key := "ENG" }]
      { is_unassigned := none, team_identifier := some "ZZZ"
        status := none, is_current_cycle := none, limit := none }
      rfl (by decide) rfl).2.1,
    (searchIssues_unknown_team cexSearchEnv
      [{ id := "team-1", name := "Engineering", key := "ENG" }]
      { is_unassigned := none, team_identifier := some "ZZZ"
        status := none, is_current_cycle := none, limit := none }
      rfl (by decide) rfl).2.2.2⟩

end LinearMCP
